import Mathlib

/-!
Verification of the participant ledger in src/bot.py (repository GiftTG).

The ledger keeps one row per Telegram user in a CSV file.  In memory a
snapshot is a Python dict mapping the string str(user_id) to a row dict
with seven string fields.  We embed that dict as an association list of
rows (List Row) in insertion order, keyed by the user_id field; Python
dict update keeps the position of an existing key and appends a new key
at the end, which dictUpdate / dictInsert below reproduce.  Timestamps
(datetime.utcnow().isoformat()) are opaque strings passed explicitly as
a now argument.
-/

namespace GiftTG

/-- One participant row, the seven CSV columns of CSV_HEADER in bot.py.
All fields are strings, exactly as they live in the CSV-backed dict. -/
structure Row where
  user_id : String
  username : String
  full_name : String
  first_seen : String
  last_participated : String
  source : String
  lang : String
deriving Repr, DecidableEq

/-- The supported language codes, LANGS = ("ru", "uz") in bot.py. -/
def LANGS : List String := ["ru", "uz"]

/-- Python dict membership test key in data, for a dict keyed by the
user_id field. -/
def hasKey (key : String) (data : List Row) : Bool :=
  data.any (fun r => r.user_id = key)

/-- Python dict lookup data.get(key) for a dict keyed by user_id. -/
def findRow (key : String) (data : List Row) : Option Row :=
  List.find? (fun r => decide (r.user_id = key)) data

/-- In-place mutation of the row stored under key: the first row whose
user_id equals key is replaced by f applied to it, every other row and
all positions are unchanged (Python mutates the dict value object). -/
def dictUpdate (key : String) (f : Row → Row) : List Row → List Row
  | [] => []
  | r :: rs => if r.user_id = key then f r :: rs else r :: dictUpdate key f rs

/-- Python dict assignment data[row.user_id] = row: replace in place if
the key is present, append at the end otherwise. -/
def dictInsert (row : Row) (data : List Row) : List Row :=
  if hasKey row.user_id data then dictUpdate row.user_id (fun _ => row) data
  else data ++ [row]

/-- The in-place mutation upsert_participant performs on an existing
row dict (bot.py lines 156-161): overwrite username, full_name,
last_participated and source, and overwrite lang only when the
optional argument is a supported code. -/
def upsertRowUpdate (now username full_name source : String)
    (lang : Option String) (row : Row) : Row :=
  { row with
      username := username
      full_name := full_name
      last_participated := now
      source := source
      lang := match lang with
        | some l => if l ∈ LANGS then l else row.lang
        | none => row.lang }

/-- upsert_participant from bot.py (lines 150-172).  The now argument
stands for datetime.utcnow().isoformat().  On an existing row it
applies upsertRowUpdate in place; on a missing row it creates one with
first_seen = last_participated = now and lang defaulted to ru when the
argument is absent or invalid.  In the Python source the expressions
username-or-empty and full_name-or-empty are identities on the string
arguments, so they are elided. -/
def upsert_participant (now : String) (user_id : Int) (username : String)
    (full_name : String) (source : String) (lang : Option String)
    (data : List Row) : List Row :=
  let key := toString user_id
  match findRow key data with
  | some _ =>
      dictUpdate key (upsertRowUpdate now username full_name source lang) data
  | none =>
      data ++ [{ user_id := key
                 username := username
                 full_name := full_name
                 first_seen := now
                 last_participated := now
                 source := source
                 lang := match lang with
                   | some l => if l ∈ LANGS then l else "ru"
                   | none => "ru" }]

/-- The single assignment set_user_lang performs on an existing row
dict (bot.py line 182): only the lang field changes. -/
def setLangUpdate (lang : String) (row : Row) : Row :=
  { row with lang := lang }

/-- set_user_lang from bot.py (lines 174-193).  An unsupported code is
normalised to ru first.  On an existing row only the lang field is
assigned (setLangUpdate); on a missing row a fresh record is created
with empty username and full_name, source lang, and both timestamps
set to now.  The now argument is used only in the creation branch,
exactly as in the source. -/
def set_user_lang (now : String) (user_id : Int) (lang : String)
    (data : List Row) : List Row :=
  let lang := if lang ∈ LANGS then lang else "ru"
  let key := toString user_id
  match findRow key data with
  | some _ => dictUpdate key (setLangUpdate lang) data
  | none =>
      data ++ [{ user_id := key
                 username := ""
                 full_name := ""
                 first_seen := now
                 last_participated := now
                 source := "lang"
                 lang := lang }]

/-- get_user_lang from bot.py (lines 143-148): the stored code when the
row exists and its lang is supported, the default ru otherwise. -/
def get_user_lang (user_id : Int) (data : List Row) : String :=
  match findRow (toString user_id) data with
  | some row => if row.lang ∈ LANGS then row.lang else "ru"
  | none => "ru"

/-! Persistence.  The CSV artifact is modelled at the record level: a
file is a list of CSV records, each a list of field strings, the string
level quoting being the business of the Python csv module (an external
library used at its documented interface: DictWriter writes one record
of seven fields per row after the header, DictReader parses them back).
The filesystem holds the canonical path and the temporary staging path
of _save_participants. -/

/-- A CSV file as the Python csv module sees it: one record per row,
each record a list of fields. -/
abbrev CsvFile := List (List String)

/-- CSV_HEADER from bot.py, line 117. -/
def CSV_HEADER : List String :=
  ["user_id", "username", "full_name", "first_seen", "last_participated", "source", "lang"]

/-- The record csv.DictWriter emits for one row dict, fields in
CSV_HEADER order. -/
def rowFields (r : Row) : List String :=
  [r.user_id, r.username, r.full_name, r.first_seen, r.last_participated, r.source, r.lang]

/-- The full file _save_participants stages: header record first, then
one record per dict value in insertion order. -/
def renderFile (data : List Row) : CsvFile :=
  CSV_HEADER :: data.map rowFields

/-- Inverse of rowFields: csv.DictReader zips the CSV_HEADER columns of
a seven-field record back into a row dict.  Files written by
_save_participants always carry exactly seven fields per record. -/
def recordToRow : List String → Option Row
  | [u, un, fn, fir, las, src, l] =>
      some { user_id := u, username := un, full_name := fn, first_seen := fir,
             last_participated := las, source := src, lang := l }
  | _ => none

/-- Reading a file the way _load_participants does: skip the header,
decode every record, and rebuild the dict via data[row.user_id] = row
in file order. -/
def loadFile (file : CsvFile) : List Row :=
  match file with
  | [] => []
  | _ :: rows => (rows.filterMap recordToRow).foldl (fun m r => dictInsert r m) []

/-- The two on-disk paths the store touches: CSV_PATH and the staging
file CSV_PATH + tmp-suffix.  none means the path does not exist. -/
structure FS where
  canonical : Option CsvFile
  tmp : Option CsvFile
deriving Repr, DecidableEq

/-- The ensure-csv helper of bot.py (lines 119-123): create the
canonical file with just the header when it is missing. -/
def ensure_csv (fs : FS) : FS :=
  match fs.canonical with
  | none => { fs with canonical := some [CSV_HEADER] }
  | some _ => fs

/-- The load-participants helper of bot.py (lines 125-132): ensure the
canonical file exists, then read it. -/
def load_participants (fs : FS) : List Row :=
  match (ensure_csv fs).canonical with
  | some file => loadFile file
  | none => []

/-- First half of the save-participants helper (bot.py lines 134-140):
write the complete new snapshot to the temporary path.  The canonical
path is untouched. -/
def stage_tmp (data : List Row) (fs : FS) : FS :=
  { fs with tmp := some (renderFile data) }

/-- Second half of the save-participants helper (bot.py line 141):
os.replace moves the staged file onto the canonical path in one atomic
step. -/
def replace_tmp (fs : FS) : FS :=
  match fs.tmp with
  | some file => { canonical := some file, tmp := none }
  | none => fs

/-- The save-participants helper of bot.py (lines 134-141): stage the
snapshot, then atomically replace the canonical file with it. -/
def save_participants (data : List Row) (fs : FS) : FS :=
  replace_tmp (stage_tmp data fs)

/-- The csv branch of export_cmd (bot.py lines 375-377): it ensures the
canonical file exists and sends that very file as the export. -/
def export_csv (fs : FS) : CsvFile :=
  match (ensure_csv fs).canonical with
  | some file => file
  | none => []

/-! Listing.  /list in bot.py parses an optional argument with int(),
falling back to 20 when absent or unparsable, clamps to 1..200, sorts
the rows by last_participated descending (Python sort with a string
key and reverse set, a stable merge sort) and keeps the first n. -/

/-- The argument handling of list_participants (bot.py lines 306-313).
The outer Option is whether an argument was given, the inner Option is
whether int() parses it (none for the unparsable case caught by the
except branch). -/
def clampN : Option (Option Int) → Nat
  | none => 20
  | some none => 20
  | some (some i) => if i < 1 then 1 else if i > 200 then 200 else i.toNat

/-- The comparison rows.sort uses, descending in the last_participated
string (reverse sort on the key).  Rows in this model always carry the
field, so the get-with-default of the source is the field itself. -/
def recentLE (a b : Row) : Bool :=
  decide (b.last_participated ≤ a.last_participated)

/-- The data part of list_participants (bot.py lines 297-318): clamp
the requested count, sort all rows by last_participated descending,
return the first n. -/
def list_participants (arg : Option (Option Int)) (data : List Row) : List Row :=
  (List.mergeSort data recentLE).take (clampN arg)

/-! Statistics.  /stats partitions the rows over a dict initialised to
zero for ru and uz; the key is the lang field when truthy, ru when the
field is empty. -/

/-- One increment of the by-lang dict, by_lang of key gets plus one with
default zero: bump the first entry holding the key, append a fresh
entry holding one when the key is new. -/
def bump (k : String) : List (String × Nat) → List (String × Nat)
  | [] => [(k, 1)]
  | p :: ps => if p.1 = k then (p.1, p.2 + 1) :: ps else p :: bump k ps

/-- The aggregation loop of stats (bot.py lines 349-357): start from
ru and uz at zero, and count every row under its lang field, or under
ru when that field is empty (the or-ru of the source fires only on a
falsy value, that is the empty string). -/
def count_by_lang (data : List Row) : List (String × Nat) :=
  data.foldl (fun m row => bump (if row.lang = "" then "ru" else row.lang) m)
    [("ru", 0), ("uz", 0)]

/-- Reading a count out of the by-lang dict; a key never stored counts
as zero. -/
def lookupCount (k : String) : List (String × Nat) → Nat
  | [] => 0
  | p :: ps => if p.1 = k then p.2 else lookupCount k ps

/-! Sequences of operations, for the claims quantified over histories. -/

/-- The non-key arguments of one upsert_participant call. -/
structure UpsertArgs where
  now : String
  username : String
  full_name : String
  source : String
  lang : Option String
deriving Repr, DecidableEq

/-- A sequence of upserts all sharing one user_id, applied in order. -/
def applyUpserts (user_id : Int) (ops : List UpsertArgs) (data : List Row) : List Row :=
  ops.foldl (fun d a => upsert_participant a.now user_id a.username a.full_name a.source a.lang d) data

/-- One upsert_participant call with its user_id. -/
structure UpsertCall where
  now : String
  user_id : Int
  username : String
  full_name : String
  source : String
  lang : Option String
deriving Repr, DecidableEq

/-- A sequence of upserts for arbitrary users, applied in order. -/
def applyCalls (ops : List UpsertCall) (data : List Row) : List Row :=
  ops.foldl (fun d a => upsert_participant a.now a.user_id a.username a.full_name a.source a.lang d) data

/-! Helper lemmas about the dict embedding. -/

theorem upsertRowUpdate_user_id (now un fn src : String) (lang : Option String) :
    ∀ x : Row, (upsertRowUpdate now un fn src lang x).user_id = x.user_id :=
  fun _ => rfl

theorem setLangUpdate_user_id (lang : String) :
    ∀ x : Row, (setLangUpdate lang x).user_id = x.user_id :=
  fun _ => rfl

theorem hasKey_eq_isSome (key : String) :
    ∀ data : List Row, hasKey key data = (findRow key data).isSome
  | [] => rfl
  | r :: rs => by
    by_cases h : r.user_id = key
    · simp [hasKey, findRow, List.find?, h]
    · simpa [hasKey, findRow, List.find?, h] using hasKey_eq_isSome key rs

theorem hasKey_false_of_findRow_none {key : String} {data : List Row}
    (h : findRow key data = none) : hasKey key data = false := by
  rw [hasKey_eq_isSome, h]
  rfl

theorem hasKey_iff_mem {key : String} {data : List Row} :
    hasKey key data = true ↔ key ∈ data.map Row.user_id := by
  constructor
  · intro h
    rcases List.any_eq_true.mp h with ⟨r, hr, hk⟩
    exact List.mem_map.mpr ⟨r, hr, of_decide_eq_true hk⟩
  · intro h
    rcases List.mem_map.mp h with ⟨r, hr, hk⟩
    exact List.any_eq_true.mpr ⟨r, hr, decide_eq_true hk⟩

theorem dictUpdate_map_user_id (key : String) (f : Row → Row)
    (hf : ∀ x, (f x).user_id = x.user_id) :
    ∀ data : List Row, (dictUpdate key f data).map Row.user_id = data.map Row.user_id
  | [] => rfl
  | r :: rs => by
    by_cases h : r.user_id = key
    · simp [dictUpdate, h, hf]
    · simp [dictUpdate, h, dictUpdate_map_user_id key f hf rs]

theorem findRow_dictUpdate_self {key : String} {f : Row → Row}
    (hf : ∀ x, (f x).user_id = x.user_id) :
    ∀ {data : List Row} {r : Row}, findRow key data = some r →
      findRow key (dictUpdate key f data) = some (f r)
  | [], _, h => by simp [findRow] at h
  | r0 :: rs, r, h => by
    by_cases hk : r0.user_id = key
    · have : r0 = r := by
        simpa [findRow, List.find?, hk] using h
      subst this
      simp [dictUpdate, hk, findRow, List.find?, hf r0, hk]
    · have h' : findRow key rs = some r := by
        simpa [findRow, List.find?, hk] using h
      simpa [dictUpdate, hk, findRow, List.find?] using
        findRow_dictUpdate_self hf h'

theorem findRow_dictUpdate_ne {k key : String} (hne : k ≠ key) (f : Row → Row)
    (hf : ∀ x, (f x).user_id = x.user_id) :
    ∀ data : List Row, findRow k (dictUpdate key f data) = findRow k data
  | [] => rfl
  | r0 :: rs => by
    have hkk : ¬ key = k := fun h => hne h.symm
    by_cases hk : r0.user_id = key
    · have h1 : ¬ (f r0).user_id = k := by
        rw [hf r0, hk]
        exact fun h => hne h.symm
      have h2 : ¬ r0.user_id = k := by
        rw [hk]
        exact fun h => hne h.symm
      simp [dictUpdate, hk, findRow, List.find?, h1, h2, hkk]
    · by_cases hk2 : r0.user_id = k
      · simp [dictUpdate, hk, findRow, List.find?, hk2, hne, hkk]
      · simpa [dictUpdate, hk, findRow, List.find?, hk2] using
          findRow_dictUpdate_ne hne f hf rs

theorem dictUpdate_comp (key : String) (f g : Row → Row)
    (hg : ∀ x, (g x).user_id = x.user_id) :
    ∀ data : List Row,
      dictUpdate key f (dictUpdate key g data) = dictUpdate key (fun x => f (g x)) data
  | [] => rfl
  | r0 :: rs => by
    by_cases hk : r0.user_id = key
    · simp [dictUpdate, hk, hg r0]
    · simp [dictUpdate, hk, dictUpdate_comp key f g hg rs]

theorem dictUpdate_append_left (key : String) (f : Row → Row) (l2 : List Row) :
    ∀ l1 : List Row, hasKey key l1 = false →
      dictUpdate key f (l1 ++ l2) = l1 ++ dictUpdate key f l2
  | [], _ => rfl
  | r0 :: rs, h => by
    have hk : ¬ r0.user_id = key := by
      intro hc
      simp [hasKey, List.any_cons, hc] at h
    have hrs : hasKey key rs = false := by
      simpa [hasKey, List.any_cons, hk] using h
    simp [dictUpdate, hk, dictUpdate_append_left key f l2 rs hrs]

theorem upsert_keys (now : String) (u : Int) (un fn src : String)
    (lang : Option String) (data : List Row) :
    (upsert_participant now u un fn src lang data).map Row.user_id =
      if hasKey (toString u) data then data.map Row.user_id
      else data.map Row.user_id ++ [toString u] := by
  cases h : findRow (toString u) data with
  | none =>
    have hk := hasKey_false_of_findRow_none h
    simp [upsert_participant, h, hk]
  | some r =>
    have hk : hasKey (toString u) data = true := by
      rw [hasKey_eq_isSome, h]
      rfl
    simp only [upsert_participant, h, hk, if_true]
    apply dictUpdate_map_user_id
    intro x
    rfl

theorem upsert_mem_key (now : String) (u : Int) (un fn src : String)
    (lang : Option String) (data : List Row) :
    toString u ∈ (upsert_participant now u un fn src lang data).map Row.user_id := by
  rw [upsert_keys]
  by_cases h : hasKey (toString u) data = true
  · simpa [h] using hasKey_iff_mem.mp h
  · simp [h]

theorem upsert_nodup (now : String) (u : Int) (un fn src : String)
    (lang : Option String) (data : List Row)
    (hnd : (data.map Row.user_id).Nodup) :
    ((upsert_participant now u un fn src lang data).map Row.user_id).Nodup := by
  rw [upsert_keys]
  by_cases h : hasKey (toString u) data = true
  · simpa [h] using hnd
  · have hm : toString u ∉ data.map Row.user_id := fun hmem =>
      h (hasKey_iff_mem.mpr hmem)
    simp [h, List.nodup_append, hnd, hm]

theorem applyUpserts_nodup_mem (u : Int) :
    ∀ (ops : List UpsertArgs) (data : List Row),
      (data.map Row.user_id).Nodup →
      ((applyUpserts u ops data).map Row.user_id).Nodup
      ∧ (ops ≠ [] → toString u ∈ (applyUpserts u ops data).map Row.user_id)
  | [], data, hnd => ⟨hnd, fun h => absurd rfl h⟩
  | a :: rest, data, hnd => by
    have h1 := upsert_nodup a.now u a.username a.full_name a.source a.lang data hnd
    have h2 := upsert_mem_key a.now u a.username a.full_name a.source a.lang data
    have IH := applyUpserts_nodup_mem u rest
      (upsert_participant a.now u a.username a.full_name a.source a.lang data) h1
    refine ⟨?_, fun _ => ?_⟩
    · simpa [applyUpserts] using IH.1
    · cases rest with
      | nil => simpa [applyUpserts] using h2
      | cons b bs =>
        simpa [applyUpserts] using IH.2 (by simp)

theorem countP_user_id (k : String) :
    ∀ data : List Row,
      data.countP (fun r => decide (r.user_id = k)) = (data.map Row.user_id).count k
  | [] => rfl
  | r :: rs => by
    by_cases h : r.user_id = k
    · simp [List.countP_cons, List.count_cons, h, countP_user_id k rs]
    · simp [List.countP_cons, List.count_cons, h, countP_user_id k rs]

theorem upsert_step_first_seen (now : String) (u : Int) (un fn src : String)
    (lang : Option String) {k : String} {data : List Row} {r : Row}
    (h : findRow k data = some r) :
    (findRow k (upsert_participant now u un fn src lang data)).map Row.first_seen =
      some r.first_seen := by
  by_cases hk : k = toString u
  · subst hk
    simp only [upsert_participant, h]
    rw [findRow_dictUpdate_self (upsertRowUpdate_user_id now un fn src lang) h]
    rfl
  · cases hf : findRow (toString u) data with
    | some r0 =>
      simp only [upsert_participant, hf]
      rw [findRow_dictUpdate_ne hk _ (upsertRowUpdate_user_id now un fn src lang), h]
      rfl
    | none =>
      simp only [upsert_participant, hf]
      simp only [findRow] at h ⊢
      rw [List.find?_append, h]
      rfl

theorem applyCalls_first_seen (k : String) :
    ∀ (ops : List UpsertCall) (data : List Row) (r : Row),
      findRow k data = some r →
      (findRow k (applyCalls ops data)).map Row.first_seen = some r.first_seen
  | [], _, _, h => by
    simp [applyCalls, h]
  | a :: rest, data, r, h => by
    have step := upsert_step_first_seen a.now a.user_id a.username a.full_name a.source a.lang h
    cases hf : findRow k
        (upsert_participant a.now a.user_id a.username a.full_name a.source a.lang data) with
    | none =>
      rw [hf] at step
      simp at step
    | some r1 =>
      rw [hf] at step
      have h1 : r1.first_seen = r.first_seen := by simpa using step
      have IH := applyCalls_first_seen k rest _ r1 hf
      rw [h1] at IH
      simpa [applyCalls] using IH

/-- Claim C2: after any non-empty sequence of upserts for the same
user id, applied to a store whose keys are duplicate-free (as every
store loaded from the dict-backed CSV is), the store holds exactly one
record for that id: the first upsert creates it and the later ones
mutate it in place. -/
theorem upsert_unique_record (u : Int) (ops : List UpsertArgs) (data : List Row)
    (hnd : (data.map Row.user_id).Nodup) (hne : ops ≠ []) :
    (applyUpserts u ops data).countP (fun r => decide (r.user_id = toString u)) = 1 := by
  obtain ⟨h1, h2⟩ := applyUpserts_nodup_mem u ops data hnd
  rw [countP_user_id]
  exact List.count_eq_one_of_mem h1 (h2 hne)

/-- Witness for upsert_unique_record: two upserts for user 1 on the
empty store leave exactly one record for that id. -/
theorem upsert_unique_record_witness :
    (applyUpserts 1
      [{ now := "t1", username := "a", full_name := "A", source := "/start", lang := none },
       { now := "t2", username := "b", full_name := "B", source := "button", lang := some "uz" }]
      []).countP (fun r => decide (r.user_id = toString (1 : Int))) = 1 :=
  upsert_unique_record 1
    [{ now := "t1", username := "a", full_name := "A", source := "/start", lang := none },
     { now := "t2", username := "b", full_name := "B", source := "button", lang := some "uz" }]
    [] (by decide) (by decide)

/-- Claim C8: first_seen is set to now exactly when a record is
created, and no later upsert (for this or any other user) ever changes
it: after any sequence of further upsert calls the record still holds
its creation first_seen. -/
theorem first_seen_set_once (now : String) (u : Int) (un fn src : String)
    (lang : Option String) (k : String) (ops : List UpsertCall)
    (data : List Row) (r : Row) :
    (findRow (toString u) data = none →
      (findRow (toString u) (upsert_participant now u un fn src lang data)).map
        Row.first_seen = some now)
    ∧ (findRow k data = some r →
      (findRow k (applyCalls ops data)).map Row.first_seen = some r.first_seen) := by
  constructor
  · intro h
    simp only [upsert_participant, h]
    simp only [findRow] at h ⊢
    rw [List.find?_append, h]
    simp [List.find?]
  · intro h
    exact applyCalls_first_seen k ops data r h

/-- Witness for first_seen_set_once: creating user 1 at t0 stores
first_seen t0, and a later upsert at t1 leaves it at t0. -/
theorem first_seen_set_once_witness :
    ((findRow (toString (1 : Int))
        (upsert_participant "t0" 1 "a" "A" "/start" none [])).map Row.first_seen = some "t0")
    ∧ ((findRow "1" (applyCalls
        [{ now := "t1", user_id := 1, username := "b", full_name := "B",
           source := "button", lang := some "uz" }]
        (upsert_participant "t0" 1 "a" "A" "/start" none []))).map Row.first_seen
        = some "t0") := by
  constructor
  · exact (first_seen_set_once "t0" 1 "a" "A" "/start" none "1" [] []
      { user_id := "1", username := "a", full_name := "A", first_seen := "t0",
        last_participated := "t0", source := "/start", lang := "ru" }).1 (by decide)
  · exact (first_seen_set_once "t1" 1 "b" "B" "button" (some "uz") "1"
      [{ now := "t1", user_id := 1, username := "b", full_name := "B",
         source := "button", lang := some "uz" }]
      (upsert_participant "t0" 1 "a" "A" "/start" none [])
      { user_id := "1", username := "a", full_name := "A", first_seen := "t0",
        last_participated := "t0", source := "/start", lang := "ru" }).2 (by decide)

/-- Claim C5: on an existing record, an upsert whose lang argument is
absent or not a supported code leaves the stored lang unchanged, while
an upsert with a supported code stores exactly that code; the
operation is total, so no error can be raised. -/
theorem upsert_lang_policy (now : String) (u : Int) (un fn src : String)
    (data : List Row) (r : Row) (h : findRow (toString u) data = some r) :
    ((findRow (toString u) (upsert_participant now u un fn src none data)).map Row.lang
        = some r.lang)
    ∧ (∀ l, l ∉ LANGS →
        (findRow (toString u)
          (upsert_participant now u un fn src (some l) data)).map Row.lang = some r.lang)
    ∧ (∀ l, l ∈ LANGS →
        (findRow (toString u)
          (upsert_participant now u un fn src (some l) data)).map Row.lang = some l) := by
  refine ⟨?_, ?_, ?_⟩
  · simp only [upsert_participant, h]
    rw [findRow_dictUpdate_self (upsertRowUpdate_user_id now un fn src none) h]
    rfl
  · intro l hl
    simp only [upsert_participant, h]
    rw [findRow_dictUpdate_self (upsertRowUpdate_user_id now un fn src (some l)) h]
    simp [upsertRowUpdate, hl]
  · intro l hl
    simp only [upsert_participant, h]
    rw [findRow_dictUpdate_self (upsertRowUpdate_user_id now un fn src (some l)) h]
    simp [upsertRowUpdate, hl]

/-- Witness for upsert_lang_policy: on the record created for user 1
at t0 an upsert without a code and one with the unsupported code xx
keep lang ru, an upsert with uz stores uz. -/
theorem upsert_lang_policy_witness :
    ((findRow (toString (1 : Int))
        (upsert_participant "t1" 1 "a" "A" "button" none
          (upsert_participant "t0" 1 "a" "A" "/start" none []))).map Row.lang = some "ru")
    ∧ ((findRow (toString (1 : Int))
        (upsert_participant "t1" 1 "a" "A" "button" (some "xx")
          (upsert_participant "t0" 1 "a" "A" "/start" none []))).map Row.lang = some "ru")
    ∧ ((findRow (toString (1 : Int))
        (upsert_participant "t1" 1 "a" "A" "button" (some "uz")
          (upsert_participant "t0" 1 "a" "A" "/start" none []))).map Row.lang = some "uz") := by
  have h : findRow (toString (1 : Int))
      (upsert_participant "t0" 1 "a" "A" "/start" none []) =
      some { user_id := "1", username := "a", full_name := "A", first_seen := "t0",
             last_participated := "t0", source := "/start", lang := "ru" } := by decide
  obtain ⟨h1, h2, h3⟩ := upsert_lang_policy "t1" 1 "a" "A" "button" _ _ h
  exact ⟨h1, h2 "xx" (by decide), h3 "uz" (by decide)⟩

/-- Claim C10: set_user_lang on a user that already has a record
rewrites only the lang field; username, full_name, first_seen,
last_participated and source keep their previous values. -/
theorem set_user_lang_frame (now : String) (u : Int) (code : String)
    (data : List Row) (r : Row) (h : findRow (toString u) data = some r) :
    findRow (toString u) (set_user_lang now u code data) =
      some { r with lang := if code ∈ LANGS then code else "ru" } := by
  simp only [set_user_lang, h]
  exact findRow_dictUpdate_self (setLangUpdate_user_id _) h

/-- Witness for set_user_lang_frame: switching user 5 to uz at t9
changes only lang on the record created at t0. -/
theorem set_user_lang_frame_witness :
    findRow (toString (5 : Int))
      (set_user_lang "t9" 5 "uz"
        (upsert_participant "t0" 5 "bob" "Bob B" "/start" none [])) =
      some { user_id := "5", username := "bob", full_name := "Bob B", first_seen := "t0",
             last_participated := "t0", source := "/start", lang := "uz" } := by
  have h : findRow (toString (5 : Int))
      (upsert_participant "t0" 5 "bob" "Bob B" "/start" none []) =
      some { user_id := "5", username := "bob", full_name := "Bob B", first_seen := "t0",
             last_participated := "t0", source := "/start", lang := "ru" } := by decide
  exact set_user_lang_frame "t9" 5 "uz" _ _ h

/-- Counterexample to claim C4 as stated: a second set_user_lang with
the same code does not refresh last_participated; after the second
call at t2 the stored timestamp is still t1, not t2. -/
theorem set_user_lang_no_refresh_counterexample :
    (findRow "1" (set_user_lang "t2" 1 "uz" (set_user_lang "t1" 1 "uz" []))).map
        Row.last_participated = some "t1"
    ∧ ¬ (findRow "1" (set_user_lang "t2" 1 "uz" (set_user_lang "t1" 1 "uz" []))).map
        Row.last_participated = some "t2" := by
  decide

/-- Claim C4 amended: set_user_lang is idempotent outright: a second
call with the same code yields exactly the same persisted state as the
first call, with no field refreshed; the source assigns timestamps
only in its record-creation branch. -/
theorem set_user_lang_idempotent (t1 t2 : String) (u : Int) (code : String)
    (data : List Row) :
    set_user_lang t2 u code (set_user_lang t1 u code data) =
      set_user_lang t1 u code data := by
  cases h : findRow (toString u) data with
  | some r =>
    have h1 : findRow (toString u)
        (dictUpdate (toString u)
          (setLangUpdate (if code ∈ LANGS then code else "ru")) data) =
        some (setLangUpdate (if code ∈ LANGS then code else "ru") r) :=
      findRow_dictUpdate_self (setLangUpdate_user_id _) h
    simp only [set_user_lang, h, h1]
    rw [dictUpdate_comp _ _ _ (setLangUpdate_user_id _)]
    congr 1
  | none =>
    have hk := hasKey_false_of_findRow_none h
    have h2 : findRow (toString u)
        (data ++ [{ user_id := toString u, username := "", full_name := "",
                    first_seen := t1, last_participated := t1, source := "lang",
                    lang := if code ∈ LANGS then code else "ru" }]) =
        some { user_id := toString u, username := "", full_name := "",
               first_seen := t1, last_participated := t1, source := "lang",
               lang := if code ∈ LANGS then code else "ru" } := by
      simp only [findRow] at h ⊢
      rw [List.find?_append, h]
      simp [List.find?]
    simp only [set_user_lang, h, h2]
    rw [dictUpdate_append_left _ _ _ data hk]
    simp [dictUpdate, setLangUpdate]

theorem lookupCount_bump (k j : String) :
    ∀ m : List (String × Nat),
      lookupCount k (bump j m) = lookupCount k m + if j = k then 1 else 0
  | [] => by
    by_cases h : j = k <;> simp [bump, lookupCount, h]
  | p :: ps => by
    by_cases hp : p.1 = j
    · by_cases hk : p.1 = k
      · have hjk : j = k := hp.symm.trans hk
        simp [bump, hp, lookupCount, hk, hjk]
      · have hjk : ¬ j = k := fun e => hk (hp.trans e)
        simp [bump, hp, lookupCount, hk, hjk]
    · by_cases hk : p.1 = k
      · have hjk : ¬ j = k := fun e => hp (hk.trans e.symm)
        have hkj : ¬ k = j := fun e => hjk e.symm
        simp [bump, hp, lookupCount, hk, hjk, hkj]
      · simp [bump, hp, lookupCount, hk, lookupCount_bump k j ps]

theorem count_by_lang_foldl (k : String) :
    ∀ (data : List Row) (m : List (String × Nat)),
      lookupCount k
          (data.foldl (fun m row => bump (if row.lang = "" then "ru" else row.lang) m) m) =
        lookupCount k m
          + data.countP (fun r => decide ((if r.lang = "" then "ru" else r.lang) = k))
  | [], m => by simp
  | r :: rs, m => by
    rw [List.foldl_cons, count_by_lang_foldl k rs, lookupCount_bump, List.countP_cons]
    by_cases h : (if r.lang = "" then "ru" else r.lang) = k
    · simp only [h, decide_True, if_true]
      omega
    · simp [h]

/-- Counterexample to claim C6 as stated: a stored record whose lang
is the non-empty unsupported code en is counted under en itself, not
under the default code ru; the default bucket stays at zero. -/
theorem stats_invalid_lang_counterexample :
    ("en" ∉ LANGS)
    ∧ count_by_lang
        [{ user_id := "7", username := "", full_name := "", first_seen := "t0",
           last_participated := "t0", source := "button", lang := "en" }] =
        [("ru", 0), ("uz", 0), ("en", 1)]
    ∧ lookupCount "ru" (count_by_lang
        [{ user_id := "7", username := "", full_name := "", first_seen := "t0",
           last_participated := "t0", source := "button", lang := "en" }]) = 0 := by
  decide

/-- Claim C6 amended: the count-by-language view counts a record under
the default code ru exactly when its lang field is empty (the missing
case); a record with any non-empty lang, supported or not, is counted
under that very code.  The count under a key k equals the number of
records whose lang, with the empty string defaulted to ru, equals k. -/
theorem count_by_lang_spec (data : List Row) (k : String) :
    lookupCount k (count_by_lang data) =
      data.countP (fun r => decide ((if r.lang = "" then "ru" else r.lang) = k)) := by
  rw [count_by_lang, count_by_lang_foldl]
  have h0 : lookupCount k [("ru", 0), ("uz", 0)] = 0 := by
    by_cases h1 : "ru" = k <;> by_cases h2 : "uz" = k <;> simp [lookupCount, h1, h2]
  rw [h0]
  omega

/-- Claim C7: list_participants clamps the requested count (below 1 to
1, above 200 to 200, absent or unparsable to 20) and then returns the
rows sorted by last_participated descending, of length the minimum of
the clamped count and the store size, every returned row being a
stored row. -/
theorem list_participants_spec (arg : Option (Option Int)) (data : List Row) :
    (list_participants arg data).length = min (clampN arg) data.length
    ∧ (list_participants arg data).Pairwise
        (fun a b => b.last_participated ≤ a.last_participated)
    ∧ list_participants arg data ⊆ data
    ∧ clampN (some (some 0)) = 1 ∧ clampN (some (some 500)) = 200
    ∧ clampN (some none) = 20 ∧ clampN none = 20 := by
  refine ⟨?_, ?_, ?_, rfl, rfl, rfl, rfl⟩
  · simp [list_participants]
  · have htrans : ∀ a b c : Row, recentLE a b → recentLE b c → recentLE a c := by
      intro a b c hab hbc
      simp only [recentLE, decide_eq_true_eq] at *
      exact le_trans hbc hab
    have htotal : ∀ a b : Row, recentLE a b || recentLE b a := by
      intro a b
      simp only [recentLE, Bool.or_eq_true, decide_eq_true_eq]
      exact le_total b.last_participated a.last_participated
    have hs := List.sorted_mergeSort htrans htotal data
    have hs' : (List.mergeSort data recentLE).Pairwise
        (fun a b => b.last_participated ≤ a.last_participated) := by
      refine hs.imp ?_
      intro a b hab
      simpa [recentLE] using hab
    exact hs'.sublist (List.take_sublist _ _)
  · intro x hx
    have hx' : x ∈ List.mergeSort data recentLE := List.take_subset _ _ hx
    exact (List.mem_mergeSort).mp hx'

theorem recordToRow_rowFields (r : Row) : recordToRow (rowFields r) = some r :=
  rfl

theorem filterMap_rowFields :
    ∀ data : List Row, (data.map rowFields).filterMap recordToRow = data
  | [] => rfl
  | r :: rs => by
    simp [recordToRow_rowFields, filterMap_rowFields rs]

theorem foldl_dictInsert :
    ∀ (data acc : List Row), ((acc ++ data).map Row.user_id).Nodup →
      data.foldl (fun m r => dictInsert r m) acc = acc ++ data
  | [], acc, _ => by simp
  | r :: rs, acc, h => by
    have hm : r.user_id ∉ acc.map Row.user_id := by
      intro hc
      rw [List.map_append] at h
      exact (List.disjoint_of_nodup_append h) hc (by simp)
    have hk : hasKey r.user_id acc = false := by
      rw [Bool.eq_false_iff]
      intro hc
      exact hm (hasKey_iff_mem.mp hc)
    have h' : (((acc ++ [r]) ++ rs).map Row.user_id).Nodup := by
      rw [← List.append_cons]
      exact h
    calc (r :: rs).foldl (fun m r => dictInsert r m) acc
        = rs.foldl (fun m r => dictInsert r m) (dictInsert r acc) := by
          rw [List.foldl_cons]
      _ = rs.foldl (fun m r => dictInsert r m) (acc ++ [r]) := by
          rw [dictInsert, hk]
          rfl
      _ = (acc ++ [r]) ++ rs := foldl_dictInsert rs (acc ++ [r]) h'
      _ = acc ++ r :: rs := (List.append_cons acc r rs).symm

theorem loadFile_renderFile (data : List Row)
    (h : (data.map Row.user_id).Nodup) :
    loadFile (renderFile data) = data := by
  simp only [loadFile, renderFile, filterMap_rowFields]
  simpa using foldl_dictInsert data [] (by simpa using h)

/-- Claim C1: a durable write stages the complete new file at the
temporary path and then atomically replaces the canonical path with
it.  A write interrupted after the staging step but before the swap
leaves the canonical store loading exactly the pre-write snapshot,
while the completed write loads the new record set. -/
theorem save_stage_then_replace (fs : FS) (data : List Row)
    (hnd : (data.map Row.user_id).Nodup) :
    load_participants (stage_tmp data fs) = load_participants fs
    ∧ save_participants data fs = replace_tmp (stage_tmp data fs)
    ∧ load_participants (save_participants data fs) = data := by
  refine ⟨?_, rfl, ?_⟩
  · cases fs with
    | mk c t => cases c <;> rfl
  · simp only [save_participants, stage_tmp, replace_tmp, load_participants, ensure_csv]
    exact loadFile_renderFile data hnd

/-- Witness for save_stage_then_replace: staging a write of the row
for user 2 over a store holding user 1 leaves the load unchanged, and
the completed write loads the new snapshot. -/
theorem save_stage_then_replace_witness :
    load_participants (stage_tmp
        [{ user_id := "2", username := "b", full_name := "B", first_seen := "t1",
           last_participated := "t1", source := "button", lang := "uz" }]
        { canonical := some (renderFile
            [{ user_id := "1", username := "a", full_name := "A", first_seen := "t0",
               last_participated := "t0", source := "/start", lang := "ru" }]),
          tmp := none }) =
      load_participants
        { canonical := some (renderFile
            [{ user_id := "1", username := "a", full_name := "A", first_seen := "t0",
               last_participated := "t0", source := "/start", lang := "ru" }]),
          tmp := none }
    ∧ load_participants (save_participants
        [{ user_id := "2", username := "b", full_name := "B", first_seen := "t1",
           last_participated := "t1", source := "button", lang := "uz" }]
        { canonical := some (renderFile
            [{ user_id := "1", username := "a", full_name := "A", first_seen := "t0",
               last_participated := "t0", source := "/start", lang := "ru" }]),
          tmp := none }) =
      [{ user_id := "2", username := "b", full_name := "B", first_seen := "t1",
         last_participated := "t1", source := "button", lang := "uz" }] := by
  constructor
  · exact (save_stage_then_replace
      { canonical := some (renderFile
          [{ user_id := "1", username := "a", full_name := "A", first_seen := "t0",
             last_participated := "t0", source := "/start", lang := "ru" }]),
        tmp := none }
      [{ user_id := "2", username := "b", full_name := "B", first_seen := "t1",
         last_participated := "t1", source := "button", lang := "uz" }]
      (by decide)).1
  · exact (save_stage_then_replace
      { canonical := some (renderFile
          [{ user_id := "1", username := "a", full_name := "A", first_seen := "t0",
             last_participated := "t0", source := "/start", lang := "ru" }]),
        tmp := none }
      [{ user_id := "2", username := "b", full_name := "B", first_seen := "t1",
         last_participated := "t1", source := "button", lang := "uz" }]
      (by decide)).2.2

/-- Claim C9: the tabular export is byte-for-byte the canonical store
file, so parsing it reproduces exactly what a direct read returns, and
a save followed by a load reproduces the stored (user_id, lang) pairs
unchanged. -/
theorem export_roundtrip (fs : FS) (data : List Row)
    (hnd : (data.map Row.user_id).Nodup) :
    loadFile (export_csv fs) = load_participants fs
    ∧ (load_participants (save_participants data fs)).map (fun r => (r.user_id, r.lang)) =
        data.map (fun r => (r.user_id, r.lang)) := by
  constructor
  · cases fs with
    | mk c t => cases c <;> rfl
  · simp only [save_participants, stage_tmp, replace_tmp, load_participants, ensure_csv]
    rw [loadFile_renderFile data hnd]

/-- Witness for export_roundtrip: on a store created by one upsert the
exported file parses back to the direct read, and saving then loading
keeps the (user_id, lang) pair. -/
theorem export_roundtrip_witness :
    loadFile (export_csv { canonical := none, tmp := none }) =
      load_participants { canonical := none, tmp := none }
    ∧ (load_participants (save_participants
        [{ user_id := "1", username := "a", full_name := "A", first_seen := "t0",
           last_participated := "t0", source := "/start", lang := "ru" }]
        { canonical := none, tmp := none })).map (fun r => (r.user_id, r.lang)) =
      [("1", "ru")] := by
  constructor
  · exact (export_roundtrip { canonical := none, tmp := none }
      [{ user_id := "1", username := "a", full_name := "A", first_seen := "t0",
         last_participated := "t0", source := "/start", lang := "ru" }] (by decide)).1
  · exact (export_roundtrip { canonical := none, tmp := none }
      [{ user_id := "1", username := "a", full_name := "A", first_seen := "t0",
         last_participated := "t0", source := "/start", lang := "ru" }] (by decide)).2

/-- Witness for set_user_lang_idempotent: repeating the uz choice for
user 1 at a later time reproduces the persisted state exactly. -/
theorem set_user_lang_idempotent_witness :
    set_user_lang "t2" 1 "uz" (set_user_lang "t1" 1 "uz" []) =
      set_user_lang "t1" 1 "uz" [] :=
  set_user_lang_idempotent "t1" "t2" 1 "uz" []

/-- Witness for count_by_lang_spec: on a store holding one record with
the unsupported code en, the count under en equals the number of
records whose defaulted lang is en. -/
theorem count_by_lang_spec_witness :
    lookupCount "en" (count_by_lang
      [{ user_id := "7", username := "", full_name := "", first_seen := "t0",
         last_participated := "t0", source := "button", lang := "en" }]) =
      List.countP (fun r : Row => decide ((if r.lang = "" then "ru" else r.lang) = "en"))
        [{ user_id := "7", username := "", full_name := "", first_seen := "t0",
           last_participated := "t0", source := "button", lang := "en" }] :=
  count_by_lang_spec
    [{ user_id := "7", username := "", full_name := "", first_seen := "t0",
       last_participated := "t0", source := "button", lang := "en" }] "en"

/-- Witness for list_participants_spec: a request of 0 on a one-row
store clamps to 1 and yields one row, and a request of 500 clamps to
200. -/
theorem list_participants_spec_witness :
    (list_participants (some (some 0))
        [{ user_id := "1", username := "a", full_name := "A", first_seen := "t0",
           last_participated := "t0", source := "/start", lang := "ru" }]).length =
      min (clampN (some (some 0)))
        (List.length (α := Row)
          [{ user_id := "1", username := "a", full_name := "A", first_seen := "t0",
             last_participated := "t0", source := "/start", lang := "ru" }])
    ∧ clampN (some (some 500)) = 200 :=
  ⟨(list_participants_spec (some (some 0))
      [{ user_id := "1", username := "a", full_name := "A", first_seen := "t0",
         last_participated := "t0", source := "/start", lang := "ru" }]).1,
   (list_participants_spec (some (some 0))
      [{ user_id := "1", username := "a", full_name := "A", first_seen := "t0",
         last_participated := "t0", source := "/start", lang := "ru" }]).2.2.2.2.1⟩

end GiftTG
